import Mathlib

/-
Verification development for the DirectoryWatcher library
(src/DirectoryWatcher.h, src/DirectoryWatcher.cpp).

The C++ code is shallowly embedded: the thread-safe growable circular
queue (ThreadSafeQueue), the notification decoder (ProcessNotification),
the completion routine (NotificationCompletion), read arming (BeginRead),
AddDirectory and ShutDown are translated into executable Lean definitions.
Machine integers (s32/u32/u64) stay in the non-negative ranges the code
maintains, so they are modelled as Nat.  The raw byte buffers handed to the
decoder are modelled in their parsed form (a list of notification entries);
a null buffer pointer is modelled as Option.none.  The OS string conversion
primitives (MultiByteToWideChar / WideCharToMultiByte) are external to the
repository and declared out of scope by the design document, so they are
modelled as the identity on abstract code units.
-/

namespace DirectoryWatcher

/-- Semantic file actions, mirroring enum struct EFileAction in
DirectoryWatcher.h. -/
inductive EFileAction where
  | None
  | Added
  | Removed
  | Modified
  | RenamedFrom
  | RenamedTo
  | TooManyChanges
  | Count
deriving DecidableEq, Repr

/-- The change record emitted to the consumer, mirroring struct FileChange.
`path` holds the code units of the bounded path buffer (the C `char` array
content up to the terminator). -/
structure FileChange where
  path : List Nat := []
  path_length : Nat := 0
  action : EFileAction := EFileAction.None
  creation_time : Nat := 0
  modification_time : Nat := 0
  change_time : Nat := 0
  access_time : Nat := 0
  size : Nat := 0
  attributes : Nat := 0
  is_directory : Bool := false
deriving DecidableEq, Repr

instance : Inhabited FileChange := ⟨{}⟩

namespace ThreadSafeQueue

/-- ThreadSafeQueue::InitialCapacity. -/
def InitialCapacity : Nat := 16

/-- ThreadSafeQueue::GrowRate. -/
def GrowRate : Nat := 2

end ThreadSafeQueue

/-- The growable circular queue, mirroring struct ThreadSafeQueue.  The
spin lock guards each operation; operations are modelled as the atomic
state transformations performed inside the lock.  `data` is the backing
array (length = `capacity`). -/
structure ThreadSafeQueue where
  data : List FileChange
  capacity : Nat
  count : Nat
  front_index : Nat
deriving DecidableEq, Repr

namespace ThreadSafeQueue

/-- ThreadSafeQueue::Create (malloc of InitialCapacity records; the fresh
memory is modelled as default records). -/
def Create : ThreadSafeQueue :=
  { data := List.replicate InitialCapacity default
    capacity := InitialCapacity
    count := 0
    front_index := 0 }

/-- The elements ThreadSafeQueue::Grow copies into the fresh buffer: when
the live range wraps past the end of the backing storage it copies the
block from `front_index` to the end, then the block from index 0; otherwise
a single block of `count` elements starting at `front_index`. -/
def growCopied (q : ThreadSafeQueue) : List FileChange :=
  if q.front_index + q.count > q.capacity then
    (q.data.drop q.front_index).take (q.capacity - q.front_index) ++
      q.data.take (q.count - (q.capacity - q.front_index))
  else
    (q.data.drop q.front_index).take q.count

/-- ThreadSafeQueue::Grow: new_capacity = capacity * GrowRate, the live
elements are copied to the start of the fresh buffer (the rest of the
malloc-ed buffer is modelled as default records), front_index is reset
to 0, count is unchanged. -/
def Grow (q : ThreadSafeQueue) : ThreadSafeQueue :=
  { data := growCopied q ++
      List.replicate (q.capacity * GrowRate - (growCopied q).length) default
    capacity := q.capacity * GrowRate
    count := q.count
    front_index := 0 }

/-- The unconditional part of ThreadSafeQueue::Push: write the element at
the logical back index `(front_index + count) % capacity` and increment
`count`. -/
def pushRaw (q : ThreadSafeQueue) (e : FileChange) : ThreadSafeQueue :=
  { q with
    data := q.data.set ((q.front_index + q.count) % q.capacity) e
    count := q.count + 1 }

/-- ThreadSafeQueue::Push: grow when full, then insert at the logical
back. -/
def Push (q : ThreadSafeQueue) (e : FileChange) : ThreadSafeQueue :=
  pushRaw (if q.count = q.capacity then Grow q else q) e

/-- ThreadSafeQueue::Pop.  Returns the popped record (none when the pop
reports no record) together with the queue state afterwards.  The
rename-pairing special case: a queue holding exactly one record whose
action is RenamedFrom reports no record available. -/
def Pop (q : ThreadSafeQueue) :
    Option FileChange × ThreadSafeQueue :=
  if q.count ≠ 0 ∧
      ¬(q.count = 1 ∧
        (q.data.getD q.front_index default).action = EFileAction.RenamedFrom) then
    (some (q.data.getD q.front_index default),
      { q with
        count := q.count - 1
        front_index := (q.front_index + 1) % q.capacity })
  else
    (none, q)

/-- The abstraction function: the logical FIFO content of the queue, the
`count` records starting at `front_index`, wrapping modulo `capacity`. -/
def absQueue (q : ThreadSafeQueue) : List FileChange :=
  (List.range q.count).map fun i =>
    q.data.getD ((q.front_index + i) % q.capacity) default

/-- The queue representation invariant established by Create and preserved
by Push and Pop. -/
def Inv (q : ThreadSafeQueue) : Prop :=
  q.data.length = q.capacity ∧ q.count ≤ q.capacity ∧ q.front_index < q.capacity

instance (q : ThreadSafeQueue) : Decidable (Inv q) := by
  unfold Inv; infer_instance

end ThreadSafeQueue

/-- One consumer/producer interaction with the Event Queue: a Push from
the worker thread or a Pop (TryGetNextChange) from the consumer thread.
The spin lock serialises these, so a history is a sequence of ops. -/
inductive QueueOp where
  | push (e : FileChange)
  | pop
deriving DecidableEq, Repr

namespace ThreadSafeQueue

/-- Run a sequence of queue operations against the implementation,
collecting the successfully popped records in order. -/
def runOps (q : ThreadSafeQueue) : List QueueOp → ThreadSafeQueue × List FileChange
  | [] => (q, [])
  | QueueOp.push e :: rest => runOps (Push q e) rest
  | QueueOp.pop :: rest =>
      let r := Pop q
      let next := runOps r.2 rest
      (next.1, (match r.1 with | some x => [x] | Option.none => []) ++ next.2)

/-- Specification-level pop on the abstract FIFO list, including the
rename-pairing exception (a singleton RenamedFrom list yields nothing). -/
def specPop (l : List FileChange) : Option FileChange × List FileChange :=
  match l with
  | [] => (Option.none, [])
  | r :: rest =>
      if rest = [] ∧ r.action = EFileAction.RenamedFrom then (Option.none, r :: rest)
      else (some r, rest)

/-- Run a sequence of queue operations against the abstract FIFO list. -/
def specRun (l : List FileChange) : List QueueOp → List FileChange × List FileChange
  | [] => (l, [])
  | QueueOp.push e :: rest => specRun (l ++ [e]) rest
  | QueueOp.pop :: rest =>
      let r := specPop l
      let next := specRun r.2 rest
      (next.1, (match r.1 with | some x => [x] | Option.none => []) ++ next.2)

end ThreadSafeQueue

/- ===== Notification decoder (DirectoryWatcher::ProcessNotification) ===== -/

/-- FILE_ACTION_ADDED. -/
def FILE_ACTION_ADDED : Nat := 1

/-- FILE_ACTION_REMOVED. -/
def FILE_ACTION_REMOVED : Nat := 2

/-- FILE_ACTION_MODIFIED. -/
def FILE_ACTION_MODIFIED : Nat := 3

/-- FILE_ACTION_RENAMED_OLD_NAME. -/
def FILE_ACTION_RENAMED_OLD_NAME : Nat := 4

/-- FILE_ACTION_RENAMED_NEW_NAME. -/
def FILE_ACTION_RENAMED_NEW_NAME : Nat := 5

/-- FILE_ATTRIBUTE_DIRECTORY (0x10). -/
def FILE_ATTRIBUTE_DIRECTORY : Nat := 16

/-- ERROR_OPERATION_ABORTED (995). -/
def ERROR_OPERATION_ABORTED : Nat := 995

/-- The UTF-16 code unit of the path separator, L-backslash. -/
def backslash : Nat := 92

/-- WideCharToMultiByte / MultiByteToWideChar are OS string-conversion
primitives external to this repository and declared out of scope by the
design document; paths are modelled as lists of abstract code units and
the conversion as the identity on them. -/
def wideToUtf8 (s : List Nat) : List Nat := s

/-- A FILE_NOTIFY_EXTENDED_INFORMATION entry, in parsed form: the raw
buffer walked by ProcessNotification is modelled as the list of entries
the NextEntryOffset chain visits, in order.  `FileName` holds the wide
code units of the embedded filename. -/
structure NotifyEvent where
  NextEntryOffset : Nat := 0
  Action : Nat := 0
  CreationTime : Nat := 0
  LastModificationTime : Nat := 0
  LastChangeTime : Nat := 0
  LastAccessTime : Nat := 0
  FileSize : Nat := 0
  FileAttributes : Nat := 0
  FileName : List Nat := []
deriving DecidableEq, Repr

/-- The combined-path construction of ProcessNotification: copy the
directory path, append a separator only when the copied path's last unit
is not a backslash, then append the entry's filename.
(The source indexes combined_path[combined_path_length - 1]; callers
guarantee a non-empty directory path.) -/
def combinePath (dir fname : List Nat) : List Nat :=
  let base := if dir.getD (dir.length - 1) 0 ≠ backslash then dir ++ [backslash] else dir
  base ++ fname

/-- Specification-level path composition (for the refinement statement of
the path-composition claim): the directory path, a separator inserted only
if the directory path does not already end in one, then the filename. -/
def combinePathSpec (dir fname : List Nat) : List Nat :=
  if dir.getLast? = some backslash then dir ++ fname else dir ++ backslash :: fname

/-- Wide code units of a string literal, for concrete path examples. -/
def strUnits (s : String) : List Nat := s.data.map Char.toNat

/-- The switch on event->Action in ProcessNotification. -/
def mapNativeAction (a : Nat) : EFileAction :=
  if a = FILE_ACTION_ADDED then EFileAction.Added
  else if a = FILE_ACTION_REMOVED then EFileAction.Removed
  else if a = FILE_ACTION_MODIFIED then EFileAction.Modified
  else if a = FILE_ACTION_RENAMED_OLD_NAME then EFileAction.RenamedFrom
  else if a = FILE_ACTION_RENAMED_NEW_NAME then EFileAction.RenamedTo
  else EFileAction.None

/-- The loop body of ProcessNotification for one notification entry:
compose the path, map the action, copy timestamps/size/attributes, derive
is_directory from the directory attribute bit, convert the path. -/
def decodeOne (dir : List Nat) (e : NotifyEvent) : FileChange :=
  { path := wideToUtf8 (combinePath dir e.FileName)
    path_length := (wideToUtf8 (combinePath dir e.FileName)).length
    action := mapNativeAction e.Action
    creation_time := e.CreationTime
    modification_time := e.LastModificationTime
    change_time := e.LastChangeTime
    access_time := e.LastAccessTime
    size := e.FileSize
    attributes := e.FileAttributes
    is_directory := (e.FileAttributes &&& FILE_ATTRIBUTE_DIRECTORY) != 0 }

/-- The do-while loop of ProcessNotification: the entry at offset 0 is
decoded unconditionally; the loop continues exactly while the entry just
decoded reports a nonzero NextEntryOffset. -/
def processLoop (dir : List Nat) : List NotifyEvent → List FileChange
  | [] => []
  | e :: rest =>
      decodeOne dir e :: (if e.NextEntryOffset ≠ 0 then processLoop dir rest else [])

/-- The record built by the null-buffer (overflow) branch of
ProcessNotification: `FileChange change = {}` with action TooManyChanges,
is_directory true and the watched directory's own path. -/
def overflowRecord (dir : List Nat) : FileChange :=
  { path := wideToUtf8 dir
    path_length := (wideToUtf8 dir).length
    action := EFileAction.TooManyChanges
    is_directory := true }

/-- DirectoryWatcher::ProcessNotification, returning the list of records
pushed to the Event Queue in push order.  A null buffer pointer is `none`;
a non-null buffer always presents the entry at offset 0, hence the
`NotifyEvent × List NotifyEvent` payload. -/
def ProcessNotification (buffer : Option (NotifyEvent × List NotifyEvent))
    (dir : List Nat) : List FileChange :=
  match buffer with
  | Option.none => [overflowRecord dir]
  | some (e, rest) => processLoop dir (e :: rest)

/- ===== Worker thread: BeginRead / NotificationCompletion ===== -/

/-- DirectoryWatcher::BeginRead acting on the request's buffer index:
the read is armed against the buffer at the current index, then the index
is toggled.  Returns (index of the buffer the read was armed against,
buffer index afterwards). -/
def BeginRead (buffer_index : Nat) : Nat × Nat :=
  (buffer_index, buffer_index ^^^ 1)

/-- The observable actions NotificationCompletion performs, in program
order. `decode none` is the null-buffer (overflow) invocation of the
decoder; `decode (some i)` decodes the buffer at index `i`. -/
inductive WorkerAction where
  | decrementOutstanding
  | freeRequest
  | rearm (buffer_idx : Nat)
  | decode (buffer : Option Nat)
deriving DecidableEq, Repr

/-- DirectoryWatcher::NotificationCompletion as a function of the
completion parameters, the termination flag and the request's buffer
index.  Returns the ordered list of actions performed and the request's
buffer index afterwards; `none` models the assert(false) abort on an
unexpected error code. -/
def NotificationCompletion (error_code bytes_transferred : Nat)
    (should_terminate : Bool) (buffer_index : Nat) :
    Option (List WorkerAction × Nat) :=
  if error_code = ERROR_OPERATION_ABORTED ∨ should_terminate then
    some ([WorkerAction.decrementOutstanding, WorkerAction.freeRequest], buffer_index)
  else if error_code ≠ 0 then Option.none
  else
    some ([WorkerAction.rearm (BeginRead buffer_index).1,
           WorkerAction.decode
             (if error_code = 0 ∧ bytes_transferred = 0 then Option.none
              else some (buffer_index ^^^ 1))],
          (BeginRead buffer_index).2)

/- ===== Facade: AddDirectory / ShutDown ===== -/

/-- The environment facts AddDirectory depends on: the asserted
preconditions, the result of the path conversion, and whether CreateFileW
yields a valid directory handle. -/
structure AddDirectoryArgs where
  thread_handle_valid : Bool
  directory_nonnull : Bool
  change_buffer_size : Int
  malloc_succeeds : Bool
  path_count : Int
  open_succeeds : Bool
deriving DecidableEq, Repr

/-- The observable outcome of AddDirectory. -/
structure AddDirectoryOutcome where
  returned : Bool
  watch_registered : Bool
  memory_retained : Bool
  handle_open : Bool
deriving DecidableEq, Repr

/-- DirectoryWatcher::AddDirectory.  `none` models an assertion failure
(contract violation, fatal).  Otherwise: when the directory handle opens,
the request is linked into the list and handed to the worker thread
(returns true); when the open fails, the allocation is freed and false is
returned with no watch registered and no handle left open. -/
def AddDirectory (a : AddDirectoryArgs) : Option AddDirectoryOutcome :=
  if ¬(a.thread_handle_valid ∧ a.directory_nonnull ∧ a.change_buffer_size > 0) then
    Option.none
  else if ¬(a.malloc_succeeds ∧ a.path_count > 0) then
    Option.none
  else if a.open_succeeds then
    some { returned := true, watch_registered := true
           memory_retained := true, handle_open := true }
  else
    some { returned := false, watch_registered := false
           memory_retained := false, handle_open := false }

/-- The two threads of the design. -/
inductive ThreadId where
  | caller
  | worker
deriving DecidableEq, Repr

/-- The operations performed on the AddDirectory success path, used to
attribute each to the thread that performs it. -/
inductive WatcherOp where
  | appendRequestList
  | queueUserApc
  | incrementOutstanding
  | beginRead
deriving DecidableEq, Repr

/-- The AddDirectory success path as the ordered list of (thread,
operation) pairs the source performs: AddDirectory, on the caller thread,
appends the request to the request list and queues the APC; the APC body
(ThreadAddDirectoryProc), on the worker thread, increments the
outstanding-request counter and arms the first read. -/
def addDirectorySuccessOps : List (ThreadId × WatcherOp) :=
  [(ThreadId.caller, WatcherOp.appendRequestList),
   (ThreadId.caller, WatcherOp.queueUserApc),
   (ThreadId.worker, WatcherOp.incrementOutstanding),
   (ThreadId.worker, WatcherOp.beginRead)]

/-- The primitive steps DirectoryWatcher::ShutDown could perform, in
order.  `waitForThreadExit` stands for a blocking join of the worker
thread (WaitForSingleObject on the thread handle); `closeThreadHandle`
is CloseHandle on the thread handle, which releases the handle without
waiting for the thread. -/
inductive ShutdownStep where
  | setTerminateFlag
  | cancelIo (handle : Nat)
  | closeHandle (handle : Nat)
  | closeThreadHandle
  | waitForThreadExit
  | destroyQueue
deriving DecidableEq, Repr

/-- DirectoryWatcher::ShutDown as the ordered list of steps the source
performs, given the directory handles of the request list: set the
termination flag; for each request cancel its pending I/O and close its
handle; CloseHandle the thread handle; destroy the queue. -/
def ShutDown (handles : List Nat) : List ShutdownStep :=
  ShutdownStep.setTerminateFlag ::
    (handles.flatMap fun h => [ShutdownStep.cancelIo h, ShutdownStep.closeHandle h]) ++
    [ShutdownStep.closeThreadHandle, ShutdownStep.destroyQueue]

/- ===== Concrete sample inputs (used by the witness theorems) ===== -/

/-- A sample added-file record. -/
def sampleA : FileChange := { path := [97], action := EFileAction.Added }

/-- A second sample record. -/
def sampleB : FileChange := { path := [98], action := EFileAction.Modified }

/-- A sample rename-from record. -/
def sampleRenamedFrom : FileChange := { path := [99], action := EFileAction.RenamedFrom }

/-- A sample rename-to record. -/
def sampleRenamedTo : FileChange := { path := [100], action := EFileAction.RenamedTo }

/-- A sample operation sequence: two pushes then a pop. -/
def sampleOps : List QueueOp :=
  [QueueOp.push sampleA, QueueOp.push sampleB, QueueOp.pop]

/-- A queue holding exactly one RenamedFrom record. -/
def qRename : ThreadSafeQueue :=
  ThreadSafeQueue.Push ThreadSafeQueue.Create sampleRenamedFrom

/-- The wide units of the sample directory path C:\data. -/
def dirC : List Nat := strUnits "C:\\data"

/-- A sample notification entry for filename a.txt. -/
def eventA : NotifyEvent := { FileName := strUnits "a.txt", Action := FILE_ACTION_ADDED }

/-- AddDirectory arguments satisfying every asserted precondition but with
the directory open failing. -/
def argsOpenFail : AddDirectoryArgs :=
  { thread_handle_valid := true, directory_nonnull := true, change_buffer_size := 32768
    malloc_succeeds := true, path_count := 8, open_succeeds := false }

/-- The outcome AddDirectory produces for argsOpenFail. -/
def outcomeOpenFail : AddDirectoryOutcome :=
  { returned := false, watch_registered := false
    memory_retained := false, handle_open := false }

/- ===== Queue lemmas ===== -/

namespace ThreadSafeQueue

theorem absQueue_length (q : ThreadSafeQueue) : (absQueue q).length = q.count := by
  simp [absQueue]

theorem growCopied_length (q : ThreadSafeQueue) (h : Inv q) :
    (growCopied q).length = q.count := by
  unfold Inv at h
  obtain ⟨hlen, hcnt, hf⟩ := h
  unfold growCopied
  by_cases hw : q.front_index + q.count > q.capacity
  · rw [if_pos hw]
    simp only [List.length_append, List.length_take, List.length_drop, hlen]
    omega
  · rw [if_neg hw]
    simp only [List.length_take, List.length_drop, hlen]
    omega

theorem growCopied_getD (q : ThreadSafeQueue) (h : Inv q) (i : Nat) (hi : i < q.count) :
    (growCopied q).getD i default =
      q.data.getD ((q.front_index + i) % q.capacity) default := by
  unfold Inv at h
  obtain ⟨hlen, hcnt, hf⟩ := h
  unfold growCopied
  rw [List.getD_eq_getElem?_getD, List.getD_eq_getElem?_getD]
  by_cases hw : q.front_index + q.count > q.capacity
  · rw [if_pos hw, List.getElem?_append]
    have hlenA : ((q.data.drop q.front_index).take (q.capacity - q.front_index)).length
        = q.capacity - q.front_index := by
      simp only [List.length_take, List.length_drop, hlen]
      omega
    rw [hlenA]
    by_cases hi1 : i < q.capacity - q.front_index
    · rw [if_pos hi1, List.getElem?_take, if_pos hi1, List.getElem?_drop]
      have : (q.front_index + i) % q.capacity = q.front_index + i :=
        Nat.mod_eq_of_lt (by omega)
      rw [this]
    · rw [if_neg hi1, List.getElem?_take, if_pos (by omega)]
      have hx : q.capacity ≤ q.front_index + i := by omega
      have hx2 : q.front_index + i < 2 * q.capacity := by omega
      have hmod : (q.front_index + i) % q.capacity = q.front_index + i - q.capacity := by
        rw [Nat.mod_eq_sub_mod hx]
        exact Nat.mod_eq_of_lt (by omega)
      rw [hmod]
      have hidx : i - (q.capacity - q.front_index) = q.front_index + i - q.capacity := by
        omega
      rw [hidx]
  · rw [if_neg hw, List.getElem?_take, if_pos hi, List.getElem?_drop]
    have : (q.front_index + i) % q.capacity = q.front_index + i :=
      Nat.mod_eq_of_lt (by omega)
    rw [this]

theorem grow_capacity (q : ThreadSafeQueue) : (Grow q).capacity = 2 * q.capacity := by
  show q.capacity * GrowRate = 2 * q.capacity
  unfold GrowRate
  omega

theorem grow_count (q : ThreadSafeQueue) : (Grow q).count = q.count := rfl

theorem grow_front (q : ThreadSafeQueue) : (Grow q).front_index = 0 := rfl

theorem Inv_grow (q : ThreadSafeQueue) (h : Inv q) : Inv (Grow q) := by
  have hc := growCopied_length q h
  unfold Inv at h ⊢
  obtain ⟨hlen, hcnt, hf⟩ := h
  refine ⟨?_, ?_, ?_⟩ <;>
    simp only [Grow, GrowRate, List.length_append, List.length_replicate, hc] <;> omega

theorem absQueue_grow (q : ThreadSafeQueue) (h : Inv q) :
    absQueue (Grow q) = absQueue q := by
  have hc := growCopied_length q h
  have hInv := h
  unfold Inv at h
  obtain ⟨hlen, hcnt, hf⟩ := h
  unfold absQueue
  rw [grow_count]
  apply List.map_congr_left
  intro i hi
  rw [List.mem_range] at hi
  rw [grow_front]
  have hcap : (Grow q).capacity = 2 * q.capacity := grow_capacity q
  have hmod : (0 + i) % (Grow q).capacity = i := by
    rw [hcap, Nat.zero_add]
    exact Nat.mod_eq_of_lt (by omega)
  rw [hmod]
  have hdata : (Grow q).data.getD i default = (growCopied q).getD i default := by
    show ((growCopied q) ++
        List.replicate (q.capacity * GrowRate - (growCopied q).length) default).getD
        i default = _
    rw [List.getD_eq_getElem?_getD, List.getD_eq_getElem?_getD,
      List.getElem?_append, if_pos (by omega)]
  rw [hdata, growCopied_getD q hInv i hi]

theorem Inv_pushRaw (q : ThreadSafeQueue) (e : FileChange) (h : Inv q)
    (hlt : q.count < q.capacity) : Inv (pushRaw q e) := by
  unfold Inv at h ⊢
  obtain ⟨hlen, hcnt, hf⟩ := h
  refine ⟨?_, ?_, ?_⟩ <;> simp only [pushRaw, List.length_set, hlen] <;> omega

theorem absQueue_pushRaw (q : ThreadSafeQueue) (e : FileChange) (h : Inv q)
    (hlt : q.count < q.capacity) :
    absQueue (pushRaw q e) = absQueue q ++ [e] := by
  unfold Inv at h
  obtain ⟨hlen, hcnt, hf⟩ := h
  unfold absQueue pushRaw
  simp only [List.range_succ, List.map_append, List.map_cons, List.map_nil]
  congr 1
  · apply List.map_congr_left
    intro i hi
    rw [List.mem_range] at hi
    rw [List.getD_eq_getElem?_getD, List.getD_eq_getElem?_getD]
    rw [List.getElem?_set_ne]
    intro heq
    have h2 : q.count % q.capacity = i % q.capacity :=
      Nat.ModEq.add_left_cancel' q.front_index heq
    rw [Nat.mod_eq_of_lt (by omega), Nat.mod_eq_of_lt (by omega)] at h2
    omega
  · have hj : (q.front_index + q.count) % q.capacity < q.data.length := by
      rw [hlen]
      exact Nat.mod_lt _ (by omega)
    rw [List.getD_eq_getElem?_getD, List.getElem?_set_eq_of_lt e hj]
    rfl

theorem Inv_push (q : ThreadSafeQueue) (e : FileChange) (h : Inv q) :
    Inv (Push q e) := by
  unfold Push
  by_cases hfull : q.count = q.capacity
  · rw [if_pos hfull]
    have hg := Inv_grow q h
    apply Inv_pushRaw _ _ hg
    rw [grow_count, grow_capacity]
    have : q.front_index < q.capacity := h.2.2
    omega
  · rw [if_neg hfull]
    exact Inv_pushRaw q e h (by have := h.2.1; omega)

theorem absQueue_push (q : ThreadSafeQueue) (e : FileChange) (h : Inv q) :
    absQueue (Push q e) = absQueue q ++ [e] := by
  unfold Push
  by_cases hfull : q.count = q.capacity
  · rw [if_pos hfull]
    have hg := Inv_grow q h
    rw [absQueue_pushRaw _ _ hg, absQueue_grow q h]
    rw [grow_count, grow_capacity]
    have : q.front_index < q.capacity := h.2.2
    omega
  · rw [if_neg hfull]
    exact absQueue_pushRaw q e h (by have := h.2.1; omega)

theorem push_capacity_ge (q : ThreadSafeQueue) (e : FileChange) :
    q.capacity ≤ (Push q e).capacity := by
  unfold Push pushRaw
  by_cases hfull : q.count = q.capacity
  · rw [if_pos hfull]
    show q.capacity ≤ (Grow q).capacity
    rw [grow_capacity]
    omega
  · rw [if_neg hfull]

theorem pop_capacity (q : ThreadSafeQueue) : (Pop q).2.capacity = q.capacity := by
  unfold Pop
  split <;> rfl

theorem absQueue_cons (q : ThreadSafeQueue) (h : Inv q) (hc : q.count ≠ 0) :
    absQueue q = q.data.getD q.front_index default ::
      (List.range (q.count - 1)).map
        (fun i => q.data.getD ((q.front_index + 1 + i) % q.capacity) default) := by
  unfold Inv at h
  obtain ⟨hlen, hcnt, hf⟩ := h
  unfold absQueue
  obtain ⟨n, hn⟩ : ∃ n, q.count = n + 1 := ⟨q.count - 1, by omega⟩
  rw [hn, List.range_succ_eq_map]
  simp only [List.map_cons, List.map_map, Nat.add_sub_cancel]
  congr 1
  · rw [Nat.add_zero, Nat.mod_eq_of_lt hf]
  · apply List.map_congr_left
    intro i hi
    simp only [Function.comp_apply]
    have harg : q.front_index + Nat.succ i = q.front_index + 1 + i := by omega
    rw [harg]

theorem absQueue_popTail (q : ThreadSafeQueue) :
    absQueue { q with count := q.count - 1
                      front_index := (q.front_index + 1) % q.capacity } =
      (List.range (q.count - 1)).map
        (fun i => q.data.getD ((q.front_index + 1 + i) % q.capacity) default) := by
  unfold absQueue
  apply List.map_congr_left
  intro i hi
  rw [Nat.mod_add_mod]

theorem specPop_cons_withheld (r : FileChange) (tl : List FileChange)
    (h : tl = [] ∧ r.action = EFileAction.RenamedFrom) :
    specPop (r :: tl) = (Option.none, r :: tl) := by
  simp only [specPop]
  rw [if_pos h]

theorem specPop_cons_front (r : FileChange) (tl : List FileChange)
    (h : ¬(tl = [] ∧ r.action = EFileAction.RenamedFrom)) :
    specPop (r :: tl) = (some r, tl) := by
  simp only [specPop]
  rw [if_neg h]

theorem pop_spec (q : ThreadSafeQueue) (h : Inv q) :
    (Pop q).1 = (specPop (absQueue q)).1 ∧
    absQueue (Pop q).2 = (specPop (absQueue q)).2 ∧
    Inv (Pop q).2 := by
  have hInv := h
  unfold Inv at h
  obtain ⟨hlen, hcnt, hf⟩ := h
  by_cases hc : q.count = 0
  · have habs : absQueue q = [] := by
      unfold absQueue
      rw [hc]
      rfl
    have hPop : Pop q = (Option.none, q) := by
      unfold Pop
      rw [if_neg (by simp [hc])]
    rw [hPop, habs]
    exact ⟨rfl, rfl, hInv⟩
  · have hcons := absQueue_cons q hInv hc
    have htl_len : ((List.range (q.count - 1)).map
        (fun i => q.data.getD ((q.front_index + 1 + i) % q.capacity) default)).length
        = q.count - 1 := by
      simp
    by_cases hsr : q.count = 1 ∧
        (q.data.getD q.front_index default).action = EFileAction.RenamedFrom
    · have htl : (List.range (q.count - 1)).map
          (fun i => q.data.getD ((q.front_index + 1 + i) % q.capacity) default) = [] := by
        rw [hsr.1]
        rfl
      have hPop : Pop q = (Option.none, q) := by
        unfold Pop
        rw [if_neg (by intro hcond; exact hcond.2 hsr)]
      have hspec : specPop (absQueue q) = (Option.none, absQueue q) := by
        rw [hcons, htl]
        exact specPop_cons_withheld _ _ ⟨rfl, hsr.2⟩
      rw [hPop, hspec]
      exact ⟨rfl, rfl, hInv⟩
    · have hPop : Pop q =
          (some (q.data.getD q.front_index default),
            { q with count := q.count - 1
                     front_index := (q.front_index + 1) % q.capacity }) := by
        unfold Pop
        rw [if_pos ⟨hc, hsr⟩]
      have hcond : ¬((List.range (q.count - 1)).map
          (fun i => q.data.getD ((q.front_index + 1 + i) % q.capacity) default) = [] ∧
          (q.data.getD q.front_index default).action = EFileAction.RenamedFrom) := by
        intro hx
        apply hsr
        refine ⟨?_, hx.2⟩
        have hl := congrArg List.length hx.1
        rw [htl_len] at hl
        simp only [List.length_nil] at hl
        omega
      have hspec : specPop (absQueue q) =
          (some (q.data.getD q.front_index default),
            (List.range (q.count - 1)).map
              (fun i => q.data.getD ((q.front_index + 1 + i) % q.capacity) default)) := by
        rw [hcons]
        exact specPop_cons_front _ _ hcond
      rw [hPop, hspec]
      refine ⟨rfl, absQueue_popTail q, ?_⟩
      unfold Inv
      refine ⟨hlen, ?_, ?_⟩
      · dsimp only
        omega
      · dsimp only
        exact Nat.mod_lt _ (by omega)

theorem runOps_spec (ops : List QueueOp) :
    ∀ q : ThreadSafeQueue, Inv q →
      Inv (runOps q ops).1 ∧
      absQueue (runOps q ops).1 = (specRun (absQueue q) ops).1 ∧
      (runOps q ops).2 = (specRun (absQueue q) ops).2 := by
  induction ops with
  | nil =>
      intro q h
      exact ⟨h, rfl, rfl⟩
  | cons op rest ih =>
      intro q h
      cases op with
      | push e =>
          have hih := ih (Push q e) (Inv_push q e h)
          have habs := absQueue_push q e h
          simp only [runOps, specRun]
          rw [← habs]
          exact hih
      | pop =>
          obtain ⟨h1, h2, h3⟩ := pop_spec q h
          have hih := ih (Pop q).2 h3
          simp only [runOps, specRun]
          refine ⟨hih.1, ?_, ?_⟩
          · rw [hih.2.1, h2]
          · rw [hih.2.2, h2, h1]

theorem Inv_create : Inv Create := by
  decide

end ThreadSafeQueue

/- ===== Decoder lemmas ===== -/

/-- The source's combined-path construction refines the spec description:
the separator is inserted exactly when the directory path does not already
end in one. -/
theorem combinePath_spec (dir fname : List Nat) (h : dir ≠ []) :
    combinePath dir fname = combinePathSpec dir fname := by
  unfold combinePath combinePathSpec
  have hlt : dir.length - 1 < dir.length := by
    cases dir with
    | nil => exact absurd rfl h
    | cons a l => simp
  obtain ⟨x, hx⟩ : ∃ x, dir[dir.length - 1]? = some x :=
    ⟨_, List.getElem?_eq_getElem hlt⟩
  rw [List.getLast?_eq_getElem?, hx, List.getD_eq_getElem?_getD, hx]
  by_cases hb : x = backslash
  · rw [hb]
    rw [if_neg (by simp), if_pos rfl]
  · rw [if_pos (by simpa using hb), if_neg (by simpa using hb)]
    simp

/- ===== Claims ===== -/

open ThreadSafeQueue in
/-- C1: for every sequence of Push calls interleaved with Pop calls on the
Event Queue (excluding the rename-pairing special case, which the abstract
queue specPop also models), Pop returns records in the order they were
pushed (the runOps/specRun simulation); Push appends to the logical
content; the invariant 0 <= count <= capacity is preserved by Push and
Pop; capacity never shrinks; and when the queue is full, Grow doubles
capacity, copies exactly count elements in logical order (including when
the live range wraps) into the new buffer with front reset to 0,
preserving the logical elements. -/
theorem C1_queue_fifo (q : ThreadSafeQueue) (e : FileChange) (ops : List QueueOp)
    (h : Inv q) :
    absQueue (Push q e) = absQueue q ++ [e] ∧
    Inv (Push q e) ∧
    Inv (Pop q).2 ∧
    q.capacity ≤ (Push q e).capacity ∧
    (Pop q).2.capacity = q.capacity ∧
    q.count ≤ q.capacity ∧
    (q.count = q.capacity →
      (Grow q).capacity = 2 * q.capacity ∧
      (Grow q).count = q.count ∧
      (Grow q).front_index = 0 ∧
      (growCopied q).length = q.count ∧
      absQueue (Grow q) = absQueue q) ∧
    absQueue (runOps q ops).1 = (specRun (absQueue q) ops).1 ∧
    (runOps q ops).2 = (specRun (absQueue q) ops).2 := by
  obtain ⟨hInv1, habs, houts⟩ := runOps_spec ops q h
  exact ⟨absQueue_push q e h, Inv_push q e h, (pop_spec q h).2.2,
    push_capacity_ge q e, pop_capacity q, h.2.1,
    fun _ => ⟨grow_capacity q, grow_count q, grow_front q,
      growCopied_length q h, absQueue_grow q h⟩,
    habs, houts⟩

open ThreadSafeQueue in
/-- Witness for C1 at the concrete queue Create and the operation sequence
sampleOps. -/
theorem C1_queue_fifo_witness :
    Inv Create ∧
    (absQueue (Push Create sampleA) = absQueue Create ++ [sampleA] ∧
     Inv (Push Create sampleA) ∧
     Inv (Pop Create).2 ∧
     Create.capacity ≤ (Push Create sampleA).capacity ∧
     (Pop Create).2.capacity = Create.capacity ∧
     Create.count ≤ Create.capacity ∧
     (Create.count = Create.capacity →
       (Grow Create).capacity = 2 * Create.capacity ∧
       (Grow Create).count = Create.count ∧
       (Grow Create).front_index = 0 ∧
       (growCopied Create).length = Create.count ∧
       absQueue (Grow Create) = absQueue Create) ∧
     absQueue (runOps Create sampleOps).1 = (specRun (absQueue Create) sampleOps).1 ∧
     (runOps Create sampleOps).2 = (specRun (absQueue Create) sampleOps).2) :=
  ⟨by decide, C1_queue_fifo Create sampleA sampleOps (by decide)⟩

open ThreadSafeQueue in
/-- C2: Pop returns none exactly when the queue is empty or when it holds
exactly one record whose action is RenamedFrom; in every other state Pop
returns the front record; and once a second record is pushed behind a
withheld RenamedFrom, the next Pop succeeds and returns the RenamedFrom
record first. -/
theorem C2_pop_rename_pairing (q : ThreadSafeQueue) (e r : FileChange) (h : Inv q) :
    ((Pop q).1 = Option.none ↔
      q.count = 0 ∨ (q.count = 1 ∧
        (q.data.getD q.front_index default).action = EFileAction.RenamedFrom)) ∧
    ((Pop q).1 ≠ Option.none →
      (Pop q).1 = some (q.data.getD q.front_index default)) ∧
    (absQueue q = [r] → r.action = EFileAction.RenamedFrom →
      (Pop q).1 = Option.none ∧ (Pop (Push q e)).1 = some r) := by
  refine ⟨?_, ?_, ?_⟩
  · by_cases hcond : q.count ≠ 0 ∧
        ¬(q.count = 1 ∧
          (q.data.getD q.front_index default).action = EFileAction.RenamedFrom)
    · have hPop : (Pop q).1 = some (q.data.getD q.front_index default) := by
        unfold Pop
        rw [if_pos hcond]
      rw [hPop]
      constructor
      · intro hx
        exact absurd hx (Option.some_ne_none _)
      · intro hor
        exfalso
        rcases hor with h0 | hpair
        · exact hcond.1 h0
        · exact hcond.2 hpair
    · have hPop : (Pop q).1 = Option.none := by
        unfold Pop
        rw [if_neg hcond]
      rw [hPop]
      refine ⟨fun _ => ?_, fun _ => rfl⟩
      by_contra hno
      push_neg at hno
      exact hcond ⟨hno.1, fun hpair => hno.2 hpair.1 hpair.2⟩
  · by_cases hcond : q.count ≠ 0 ∧
        ¬(q.count = 1 ∧
          (q.data.getD q.front_index default).action = EFileAction.RenamedFrom)
    · intro _
      unfold Pop
      rw [if_pos hcond]
    · intro hx
      exfalso
      apply hx
      unfold Pop
      rw [if_neg hcond]
  · intro habs hract
    have hlen := absQueue_length q
    rw [habs] at hlen
    have hc1 : q.count = 1 := by
      simpa using hlen.symm
    refine ⟨?_, ?_⟩
    · rw [(pop_spec q h).1, habs,
        specPop_cons_withheld r [] ⟨rfl, hract⟩]
    · have hInv2 := Inv_push q e h
      have habs2 : absQueue (Push q e) = [r, e] := by
        rw [absQueue_push q e h, habs]
        rfl
      rw [(pop_spec (Push q e) hInv2).1, habs2,
        specPop_cons_front r [e] (by simp)]

open ThreadSafeQueue in
/-- Witness for C2 at a queue holding exactly one RenamedFrom record. -/
theorem C2_pop_rename_pairing_witness :
    Inv qRename ∧
    (((Pop qRename).1 = Option.none ↔
      qRename.count = 0 ∨ (qRename.count = 1 ∧
        (qRename.data.getD qRename.front_index default).action =
          EFileAction.RenamedFrom)) ∧
    ((Pop qRename).1 ≠ Option.none →
      (Pop qRename).1 = some (qRename.data.getD qRename.front_index default)) ∧
    (absQueue qRename = [sampleRenamedFrom] →
      sampleRenamedFrom.action = EFileAction.RenamedFrom →
      (Pop qRename).1 = Option.none ∧
      (Pop (Push qRename sampleRenamedTo)).1 = some sampleRenamedFrom)) :=
  ⟨by decide, C2_pop_rename_pairing qRename sampleRenamedTo sampleRenamedFrom (by decide)⟩

/-- C3: the claim says ShutDown blocks until the Worker Thread has exited
and destroys the Event Queue only afterwards.  The source performs, in
order: set the termination flag, cancel and close each request handle,
CloseHandle on the thread handle, destroy the queue.  CloseHandle merely
releases the handle and never waits for the thread, and the step sequence
contains no join (WaitForSingleObject) at all, so the queue is destroyed
without waiting for the worker thread to exit.  This theorem evaluates
the ShutDown step sequence for a watcher with one request whose directory
handle is 7: every handle is cancelled and closed and the queue is
destroyed, but no wait-for-thread-exit step occurs. -/
theorem C3_shutdown_no_join :
    ShutdownStep.waitForThreadExit ∉ ShutDown [7] ∧
    ShutdownStep.setTerminateFlag ∈ ShutDown [7] ∧
    ShutdownStep.cancelIo 7 ∈ ShutDown [7] ∧
    ShutdownStep.closeHandle 7 ∈ ShutDown [7] ∧
    ShutdownStep.destroyQueue ∈ ShutDown [7] := by
  decide

/-- C4: a completion carrying no error and zero bytes transferred is
treated as overflow: the completion routine still re-arms a read (the
watch continues, the rearm preceding the decode in the action list) and
invokes the decoder with a null buffer, and for a null buffer the decoder
emits exactly one record whose action is TooManyChanges, whose
is_directory flag is true, and whose path is the watched directory's own
path. -/
theorem C4_overflow_too_many_changes (idx : Nat) (dir : List Nat) :
    NotificationCompletion 0 0 false idx =
      some ([WorkerAction.rearm idx, WorkerAction.decode Option.none], idx ^^^ 1) ∧
    ProcessNotification Option.none dir = [overflowRecord dir] ∧
    (ProcessNotification Option.none dir).length = 1 ∧
    ((ProcessNotification Option.none dir).headD default).action =
      EFileAction.TooManyChanges ∧
    ((ProcessNotification Option.none dir).headD default).is_directory = true ∧
    ((ProcessNotification Option.none dir).headD default).path = dir :=
  ⟨rfl, rfl, rfl, rfl, rfl, rfl⟩

/-- C5: the buffer index stays in {0, 1}; BeginRead arms the read against
the buffer at the current index and then flips the index; and a
non-cancellation completion arriving after a read armed at index i first
re-arms a read against the other buffer (the rearm action precedes the
decode action) and then decodes buffer i, the buffer the completed read
wrote (buffer_index XOR 1 at completion time), unless the completion is
the zero-byte overflow, in which case the decode is the null-buffer
one. -/
theorem C5_buffer_toggling (i bytes : Nat) (hi : i = 0 ∨ i = 1) :
    (BeginRead i).1 = i ∧
    (BeginRead i).2 = i ^^^ 1 ∧
    ((BeginRead i).2 = 0 ∨ (BeginRead i).2 = 1) ∧
    (BeginRead i).2 ≠ i ∧
    NotificationCompletion 0 bytes false ((BeginRead i).2) =
      some ([WorkerAction.rearm ((BeginRead i).2),
             WorkerAction.decode (if bytes = 0 then Option.none else some i)],
            i) := by
  rcases hi with h | h <;> subst h <;>
    refine ⟨rfl, rfl, by decide, by decide, ?_⟩ <;>
    by_cases hb : bytes = 0 <;>
    simp [NotificationCompletion, BeginRead, ERROR_OPERATION_ABORTED, hb]

/-- Witness for C5 at buffer index 0 and a 3-byte completion. -/
theorem C5_buffer_toggling_witness :
    ((0 : Nat) = 0 ∨ (0 : Nat) = 1) ∧
    ((BeginRead 0).1 = 0 ∧
     (BeginRead 0).2 = 0 ^^^ 1 ∧
     ((BeginRead 0).2 = 0 ∨ (BeginRead 0).2 = 1) ∧
     (BeginRead 0).2 ≠ 0 ∧
     NotificationCompletion 0 3 false ((BeginRead 0).2) =
       some ([WorkerAction.rearm ((BeginRead 0).2),
              WorkerAction.decode (if (3 : Nat) = 0 then Option.none else some 0)],
             0)) :=
  ⟨by decide, C5_buffer_toggling 0 3 (by decide)⟩

/-- C6: for every decoded entry the reported path is the watched directory
path concatenated with a separator and the entry's filename, with the
separator inserted only if the directory path does not already end in
one; in particular C:\data plus a.txt yields C:\data\a.txt, and C:\data\
(trailing separator) plus a.txt also yields C:\data\a.txt with no doubled
separator. -/
theorem C6_path_composition (dir : List Nat) (e : NotifyEvent) (h : dir ≠ []) :
    (decodeOne dir e).path = combinePathSpec dir e.FileName ∧
    combinePath (strUnits "C:\\data") (strUnits "a.txt") =
      strUnits "C:\\data\\a.txt" ∧
    combinePath (strUnits "C:\\data\\") (strUnits "a.txt") =
      strUnits "C:\\data\\a.txt" := by
  refine ⟨?_, by decide, by decide⟩
  show wideToUtf8 (combinePath dir e.FileName) = _
  unfold wideToUtf8
  exact combinePath_spec dir e.FileName h

/-- Witness for C6 at directory C:\data and filename a.txt. -/
theorem C6_path_composition_witness :
    dirC ≠ [] ∧
    ((decodeOne dirC eventA).path = combinePathSpec dirC eventA.FileName ∧
     combinePath (strUnits "C:\\data") (strUnits "a.txt") =
       strUnits "C:\\data\\a.txt" ∧
     combinePath (strUnits "C:\\data\\") (strUnits "a.txt") =
       strUnits "C:\\data\\a.txt") :=
  ⟨by decide, C6_path_composition dirC eventA (by decide)⟩

/-- C7: given arguments that pass every asserted precondition (so
AddDirectory returns rather than aborting), AddDirectory returns false
exactly when opening the directory handle fails, and on that failure no
watch is registered, the allocation is released, and no handle remains
open, so a subsequent ShutDown has nothing of this request to leak. -/
theorem C7_add_directory_failure (a : AddDirectoryArgs) (r : AddDirectoryOutcome)
    (h : AddDirectory a = some r) :
    (r.returned = false ↔ a.open_succeeds = false) ∧
    (r.returned = false →
      r.watch_registered = false ∧ r.memory_retained = false ∧
        r.handle_open = false) := by
  unfold AddDirectory at h
  by_cases hA : a.thread_handle_valid ∧ a.directory_nonnull ∧ a.change_buffer_size > 0
  · by_cases hB : a.malloc_succeeds ∧ a.path_count > 0
    · by_cases hC : a.open_succeeds = true
      · rw [if_neg (not_not_intro hA), if_neg (not_not_intro hB), if_pos hC] at h
        have hr := Option.some.inj h
        rw [← hr]
        simp [hC]
      · rw [if_neg (not_not_intro hA), if_neg (not_not_intro hB), if_neg hC] at h
        have hr := Option.some.inj h
        rw [Bool.not_eq_true] at hC
        rw [← hr]
        simp [hC]
    · rw [if_neg (not_not_intro hA), if_pos hB] at h
      exact absurd h (by simp)
  · rw [if_pos hA] at h
    exact absurd h (by simp)

/-- Witness for C7 at arguments whose directory open fails. -/
theorem C7_add_directory_failure_witness :
    AddDirectory argsOpenFail = some outcomeOpenFail ∧
    ((outcomeOpenFail.returned = false ↔ argsOpenFail.open_succeeds = false) ∧
     (outcomeOpenFail.returned = false →
       outcomeOpenFail.watch_registered = false ∧
       outcomeOpenFail.memory_retained = false ∧
       outcomeOpenFail.handle_open = false)) :=
  ⟨by decide, C7_add_directory_failure argsOpenFail outcomeOpenFail (by decide)⟩

/-- C8 counterexample: the claim says no operation running on the caller
thread modifies the request list and that AddDirectory only hands the new
request to the Worker Thread, which performs the list mutation.  In the
source, AddDirectory itself appends the request to the request list
before queueing the start-watching APC, and AddDirectory runs on the
caller thread: the AddDirectory success path contains a caller-thread
request-list append. -/
theorem C8_counterexample :
    (ThreadId.caller, WatcherOp.appendRequestList) ∈ addDirectorySuccessOps := by
  decide

/-- C8 amended: on the AddDirectory success path the request-list
mutation is performed by the caller thread inside AddDirectory itself
(before the start-watching job is queued); the Worker Thread's part is
only to increment the outstanding counter and arm the first read, and the
Worker Thread performs no request-list mutation. -/
theorem C8_caller_appends_request :
    addDirectorySuccessOps.filter (fun p => p.2 == WatcherOp.appendRequestList) =
      [(ThreadId.caller, WatcherOp.appendRequestList)] ∧
    addDirectorySuccessOps.filter (fun p => p.1 == ThreadId.worker) =
      [(ThreadId.worker, WatcherOp.incrementOutstanding),
       (ThreadId.worker, WatcherOp.beginRead)] := by
  decide

/-- C9: the decoder maps each of the five recognized native action codes
to exactly one semantic action (added to Added, removed to Removed,
modified to Modified, renamed-old-name to RenamedFrom, renamed-new-name
to RenamedTo), and every unrecognized native action code maps to None
without aborting. -/
theorem C9_action_mapping (a : Nat)
    (h1 : a ≠ FILE_ACTION_ADDED) (h2 : a ≠ FILE_ACTION_REMOVED)
    (h3 : a ≠ FILE_ACTION_MODIFIED) (h4 : a ≠ FILE_ACTION_RENAMED_OLD_NAME)
    (h5 : a ≠ FILE_ACTION_RENAMED_NEW_NAME) :
    mapNativeAction FILE_ACTION_ADDED = EFileAction.Added ∧
    mapNativeAction FILE_ACTION_REMOVED = EFileAction.Removed ∧
    mapNativeAction FILE_ACTION_MODIFIED = EFileAction.Modified ∧
    mapNativeAction FILE_ACTION_RENAMED_OLD_NAME = EFileAction.RenamedFrom ∧
    mapNativeAction FILE_ACTION_RENAMED_NEW_NAME = EFileAction.RenamedTo ∧
    mapNativeAction a = EFileAction.None := by
  refine ⟨by decide, by decide, by decide, by decide, by decide, ?_⟩
  unfold mapNativeAction
  rw [if_neg h1, if_neg h2, if_neg h3, if_neg h4, if_neg h5]

/-- Witness for C9 at the unrecognized action code 9. -/
theorem C9_action_mapping_witness :
    ((9 : Nat) ≠ FILE_ACTION_ADDED ∧ (9 : Nat) ≠ FILE_ACTION_REMOVED ∧
     (9 : Nat) ≠ FILE_ACTION_MODIFIED ∧ (9 : Nat) ≠ FILE_ACTION_RENAMED_OLD_NAME ∧
     (9 : Nat) ≠ FILE_ACTION_RENAMED_NEW_NAME) ∧
    (mapNativeAction FILE_ACTION_ADDED = EFileAction.Added ∧
     mapNativeAction FILE_ACTION_REMOVED = EFileAction.Removed ∧
     mapNativeAction FILE_ACTION_MODIFIED = EFileAction.Modified ∧
     mapNativeAction FILE_ACTION_RENAMED_OLD_NAME = EFileAction.RenamedFrom ∧
     mapNativeAction FILE_ACTION_RENAMED_NEW_NAME = EFileAction.RenamedTo ∧
     mapNativeAction 9 = EFileAction.None) :=
  ⟨⟨by decide, by decide, by decide, by decide, by decide⟩,
    C9_action_mapping 9 (by decide) (by decide) (by decide) (by decide) (by decide)⟩

/-- C10: for every non-null notification buffer the decoder pushes at
least one change record: the entry at offset 0 is decoded and pushed
unconditionally before the do-while loop's termination test, so a
non-null buffer can never yield zero records, and the first pushed record
is the decoding of that first entry. -/
theorem C10_nonnull_buffer_yields_record (dir : List Nat) (e : NotifyEvent)
    (rest : List NotifyEvent) :
    1 ≤ (ProcessNotification (some (e, rest)) dir).length ∧
    (ProcessNotification (some (e, rest)) dir).headD default = decodeOne dir e := by
  have hred : ProcessNotification (some (e, rest)) dir =
      decodeOne dir e ::
        (if e.NextEntryOffset ≠ 0 then processLoop dir rest else []) := rfl
  rw [hred]
  exact ⟨by simp, rfl⟩

end DirectoryWatcher
